import Mathlib

/-!
# Verification of the DiscordBot cache-merge core

Shallow embedding of the state-synchronization core of the repository:
the `Guild` cache-merge operations from `discord api/discord/guild.py`
(`_add_role`, `_remove_role`, `_remove_member`, `_update_voice_state`,
`_from_data`, `_sync`, the `large` property) and the snowflake utilities
from `discord.py-rewrite/build/lib/discord/utils.py` (`snowflake_time`,
`SnowflakeList`).

Python dictionaries are embedded as association lists in insertion order
with unique keys; raising an exception is embedded as returning `none`
(or an explicit error value).  Machine integers are embedded as `Nat`
(Python integers are arbitrary precision).
-/

namespace DiscordBot

/-- Modelled from the spec: `Role` (class `Role` is not under `src/`): a role
"belongs to exactly one guild; has an integer `position` defining hierarchy
order, where a built-in "default" role is pinned at position 0".  The
`is_default` method of the source is carried as a stable Boolean field. -/
structure Role where
  id : Nat
  position : Nat
  is_default : Bool
deriving DecidableEq, Repr

/-- Python `dict.__setitem__` for the guild's `_roles` mapping keyed by
`role.id`: overwrite in place if the key is present, else append. -/
def rolesInsert : List Role → Role → List Role
  | [], role => [role]
  | r :: rs, role =>
      if r.id == role.id then role :: rs else r :: rolesInsert rs role

/-- Python `dict.pop(key)` for the `_roles` mapping: remove and return the
entry with the given key; `none` embeds the `KeyError` raised when the key
is absent. -/
def rolesPop : List Role → Nat → Option (Role × List Role)
  | [], _ => none
  | r :: rs, rid =>
      if r.id == rid then some (r, rs)
      else (rolesPop rs rid).map (fun p => (p.1, r :: p.2))

/-- Position bump performed by `_add_role` on each existing role:
`r.position += (not r.is_default())`. -/
def bumpNonDefault (r : Role) : Role :=
  if r.is_default then r else { r with position := r.position + 1 }

/-- `Guild._add_role` (guild.py lines 176-185): bump the position of every
non-default role by one, then store the new role in the `_roles` dict. -/
def addRoles (rs : List Role) (role : Role) : List Role :=
  rolesInsert (rs.map bumpNonDefault) role

/-- Position adjustment performed by `_remove_role` on each surviving role:
`r.position -= r.position > role.position`. -/
def decAbove (q : Nat) (r : Role) : Role :=
  if q < r.position then { r with position := r.position - 1 } else r

/-- `Guild._remove_role` (guild.py lines 187-197): `pop` the role (raising
`KeyError`, i.e. `none`, when absent), then decrement the position of every
role strictly above the removed one. -/
def removeRoles (rs : List Role) (rid : Nat) : Option (Role × List Role) :=
  match rolesPop rs rid with
  | none => none
  | some (role, rest) => some (role, rest.map (decAbove role.position))

theorem rolesPop_eq_some {rs : List Role} {rid : Nat} {role : Role} {rest : List Role}
    (h : rolesPop rs rid = some (role, rest)) :
    ∃ l₁ l₂, rs = l₁ ++ role :: l₂ ∧ rest = l₁ ++ l₂ ∧ role.id = rid ∧
      ∀ r ∈ l₁, r.id ≠ rid := by
  induction rs generalizing rest with
  | nil => simp [rolesPop] at h
  | cons r rs ih =>
      by_cases hid : r.id = rid
      · simp [rolesPop, hid] at h
        exact ⟨[], rs, by simp [h.1, h.2], by simp [h.2], by simp [← h.1, hid], by simp⟩
      · simp only [rolesPop, beq_iff_eq, hid, if_false, Option.map_eq_some'] at h
        obtain ⟨⟨role', rest'⟩, hpop, heq⟩ := h
        simp only [Prod.mk.injEq] at heq
        obtain ⟨h1, h2⟩ := heq
        subst h1
        obtain ⟨l₁, l₂, hsplit, hrest, hid', hl₁⟩ := ih hpop
        refine ⟨r :: l₁, l₂, by simp [hsplit], by simp [← h2, hrest], hid', ?_⟩
        intro x hx
        rcases List.mem_cons.mp hx with hx | hx
        · exact hx ▸ hid
        · exact hl₁ x hx

theorem rolesPop_eq_none {rs : List Role} {rid : Nat}
    (h : ∀ r ∈ rs, r.id ≠ rid) : rolesPop rs rid = none := by
  induction rs with
  | nil => rfl
  | cons r rs ih =>
      have hr : r.id ≠ rid := h r (by simp)
      simp only [rolesPop, beq_iff_eq, hr, if_false]
      rw [ih (fun x hx => h x (by simp [hx]))]
      rfl

theorem rolesInsert_fresh {rs : List Role} {role : Role}
    (h : ∀ r ∈ rs, r.id ≠ role.id) : rolesInsert rs role = rs ++ [role] := by
  induction rs with
  | nil => rfl
  | cons r rs ih =>
      have hr : r.id ≠ role.id := h r (by simp)
      simp only [rolesInsert, beq_iff_eq, hr, if_false, List.cons_append,
        List.cons.injEq, true_and]
      exact ih (fun x hx => h x (by simp [hx]))

/-- C2.  `Guild._remove_role` on a role id present in the role map removes
exactly that role and decrements the position of exactly those remaining
roles whose position exceeded the removed role's position, leaving all other
positions unchanged; moreover, on the concrete guild with `@everyone` (id 1)
at position 0, `Admin` (id 2) at position 1 and `Mod` (id 3) at position 2,
deleting `Admin` yields `@everyone` at position 0 and `Mod` at position 1. -/
theorem remove_role_effect :
    (∀ (rs : List Role) (rid : Nat) (role : Role) (rest : List Role),
      removeRoles rs rid = some (role, rest) →
        role.id = rid ∧
        ∃ l₁ l₂, rs = l₁ ++ role :: l₂ ∧ rest = (l₁ ++ l₂).map (decAbove role.position)) ∧
    removeRoles [⟨1, 0, true⟩, ⟨2, 1, false⟩, ⟨3, 2, false⟩] 2 =
      some (⟨2, 1, false⟩, [⟨1, 0, true⟩, ⟨3, 1, false⟩]) := by
  constructor
  · intro rs rid role rest h
    simp only [removeRoles] at h
    cases hpop : rolesPop rs rid with
    | none => rw [hpop] at h; exact absurd h (by simp)
    | some p =>
        rw [hpop] at h
        obtain ⟨role', rest'⟩ := p
        simp only [Option.some.injEq, Prod.mk.injEq] at h
        obtain ⟨hrole, hrest⟩ := h
        subst hrole
        obtain ⟨l₁, l₂, hsplit, hmid, hid, _⟩ := rolesPop_eq_some hpop
        exact ⟨hid, l₁, l₂, hsplit, by rw [← hrest, hmid]⟩
  · rfl

/-- Witness for `remove_role_effect` at the concrete 3-role guild. -/
theorem remove_role_effect_witness :
    (⟨2, 1, false⟩ : Role).id = 2 ∧
    ∃ l₁ l₂, ([⟨1, 0, true⟩, ⟨2, 1, false⟩, ⟨3, 2, false⟩] : List Role)
        = l₁ ++ ⟨2, 1, false⟩ :: l₂ ∧
      [⟨1, 0, true⟩, ⟨3, 1, false⟩] = (l₁ ++ l₂).map (decAbove 1) :=
  remove_role_effect.1 _ 2 _ _ (by decide)

/-- C3 counterexample.  Deleting an unknown role id is not a no-op: the
source `pop`s without a default (its own comment reads "this raises KeyError
if it fails"), so on a guild holding only the default role, `_remove_role 5`
raises `KeyError` (embedded as `none`) instead of returning successfully. -/
theorem remove_role_unknown_counterexample :
    removeRoles [⟨1, 0, true⟩] 5 = none ∧
    ∀ p : Role × List Role, removeRoles [⟨1, 0, true⟩] 5 ≠ some p := by
  refine ⟨rfl, fun p h => ?_⟩
  rw [show removeRoles [⟨1, 0, true⟩] 5 = none from rfl] at h
  exact Option.noConfusion h

/-- C3 amended.  For every guild and every role id not present in the role
map, `Guild._remove_role` raises `KeyError` (embedded as `none`); the role
map itself is left untouched by the failed `pop`. -/
theorem remove_role_unknown_raises (rs : List Role) (rid : Nat)
    (h : ∀ r ∈ rs, r.id ≠ rid) : removeRoles rs rid = none := by
  simp only [removeRoles, rolesPop_eq_none h]

/-- Witness for `remove_role_unknown_raises` at a concrete guild. -/
theorem remove_role_unknown_raises_witness :
    removeRoles [⟨1, 0, true⟩, ⟨2, 1, false⟩] 7 = none :=
  remove_role_unknown_raises _ 7 (by decide)

/-- Invariant claimed for a guild's role map: the positions are exactly the
contiguous integers `0 .. N-1` (no gaps, no duplicates), the default
(`@everyone`) role sits at position 0 and is the only role there, and the
role ids are pairwise distinct (they are `dict` keys in the source). -/
def RolesInvariant (rs : List Role) : Prop :=
  (rs.map Role.position).Perm (List.range rs.length) ∧
  (∀ r ∈ rs, r.is_default = true ↔ r.position = 0) ∧
  (rs.map Role.id).Nodup ∧
  ∃ r ∈ rs, r.is_default = true

instance (rs : List Role) : Decidable (RolesInvariant rs) := by
  unfold RolesInvariant; infer_instance

/-- Role-map events of the cache-merge engine: role-create feeds
`Guild._add_role`, role-delete feeds `Guild._remove_role`. -/
inductive RoleEvent where
  | create : Role → RoleEvent
  | delete : Nat → RoleEvent
deriving DecidableEq, Repr

/-- Apply one role event to a role map; a deletion of an absent id leaves
the map untouched (the source's `pop` raises before any mutation). -/
def applyRoleEvent (rs : List Role) : RoleEvent → List Role
  | .create role => addRoles rs role
  | .delete rid =>
      match removeRoles rs rid with
      | some p => p.2
      | none => rs

/-- Apply a sequence of role events left to right (arrival order). -/
def applyRoleEvents (rs : List Role) (es : List RoleEvent) : List Role :=
  es.foldl applyRoleEvent rs

/-- Validity of one event, as amended: a created role carries position 1, is
not the default role and has a fresh id; a deleted role is present and is
not the default role. -/
def eventOK (rs : List Role) : RoleEvent → Prop
  | .create role => role.position = 1 ∧ role.is_default = false ∧ ∀ r ∈ rs, r.id ≠ role.id
  | .delete rid => ∃ r ∈ rs, r.id = rid ∧ r.is_default = false

instance (rs : List Role) (e : RoleEvent) : Decidable (eventOK rs e) := by
  cases e <;> (unfold eventOK; infer_instance)

/-- Validity of a sequence of events, each checked against the state it is
applied to. -/
def eventsOK : List Role → List RoleEvent → Prop
  | _, [] => True
  | rs, e :: es => eventOK rs e ∧ eventsOK (applyRoleEvent rs e) es

instance eventsOKDec : (rs : List Role) → (es : List RoleEvent) → Decidable (eventsOK rs es)
  | _, [] => .isTrue trivial
  | rs, e :: es =>
      haveI := eventsOKDec (applyRoleEvent rs e) es
      inferInstanceAs (Decidable (eventOK rs e ∧ eventsOK (applyRoleEvent rs e) es))

theorem perm_range_create {l : List Nat} {m : Nat}
    (h : l.Perm (List.range (m + 1))) :
    ((l.map fun p => if p = 0 then 0 else p + 1) ++ [1]).Perm (List.range (m + 2)) := by
  have e1 : ((List.range (m + 1)).map fun p => if p = 0 then 0 else p + 1)
      = 0 :: (List.range m).map (fun p => p + 2) := by
    rw [List.range_succ_eq_map, List.map_cons, List.map_map]
    refine congrArg _ (List.map_congr_left fun a _ => ?_)
    simp [Function.comp, Nat.succ_eq_add_one]
  have e2 : List.range (m + 2) = 0 :: 1 :: (List.range m).map (fun p => p + 2) := by
    rw [List.range_succ_eq_map, List.range_succ_eq_map, List.map_cons, List.map_map]
    refine congrArg _ (congrArg _ (List.map_congr_left fun a _ => ?_))
    simp [Function.comp, Nat.succ_eq_add_one]
  refine ((h.map _).append_right [1]).trans ?_
  rw [e1, e2, List.cons_append]
  exact (List.perm_append_singleton 1 _).cons 0

theorem perm_range_delete {l : List Nat} {n q : Nat} (hq : q < n)
    (h : l.Perm ((List.range n).erase q)) :
    (l.map fun p => if q < p then p - 1 else p).Perm (List.range (n - 1)) := by
  have e0 : List.range q ++ q :: List.range' (q + 1) (n - q - 1) = List.range n := by
    rw [show q :: List.range' (q + 1) (n - q - 1) = List.range' q (n - q - 1 + 1) from
      (List.range'_succ q (n - q - 1) 1).symm]
    rw [List.range_eq_range']
    have happ := List.range'_append_1 0 q (n - q - 1 + 1)
    rw [Nat.zero_add] at happ
    rw [happ, show n - q - 1 + 1 + q = n from by omega]
    exact (List.range_eq_range' _).symm
  have e1 : (List.range n).erase q = List.range q ++ List.range' (q + 1) (n - q - 1) := by
    rw [← e0, List.erase_append_right _ (by simp [List.mem_range]),
      List.erase_cons_head]
  have e2 : ((List.range q).map fun p => if q < p then p - 1 else p) = List.range q := by
    conv_rhs => rw [← List.map_id (List.range q)]
    refine List.map_congr_left fun a ha => ?_
    rw [List.mem_range] at ha
    simp only [id]
    rw [if_neg (by omega)]
  have e3 : ((List.range' (q + 1) (n - q - 1)).map fun p => if q < p then p - 1 else p)
      = List.range' q (n - q - 1) := by
    rw [List.range'_eq_map_range (q + 1), List.range'_eq_map_range q, List.map_map]
    refine List.map_congr_left fun a _ => ?_
    simp only [Function.comp]
    rw [if_pos (by omega)]
    omega
  have e4 : List.range q ++ List.range' q (n - q - 1) = List.range (n - 1) := by
    rw [List.range_eq_range']
    have happ := List.range'_append_1 0 q (n - q - 1)
    rw [Nat.zero_add] at happ
    rw [happ, show n - q - 1 + q = n - 1 from by omega]
    exact (List.range_eq_range' _).symm
  refine (h.map _).trans ?_
  rw [e1, List.map_append, e2, e3, e4]

@[simp] theorem bumpNonDefault_id (r : Role) : (bumpNonDefault r).id = r.id := by
  by_cases h : r.is_default <;> simp [bumpNonDefault, h]

@[simp] theorem bumpNonDefault_flag (r : Role) :
    (bumpNonDefault r).is_default = r.is_default := by
  by_cases h : r.is_default <;> simp [bumpNonDefault, h]

@[simp] theorem decAbove_id (q : Nat) (r : Role) : (decAbove q r).id = r.id := by
  by_cases h : q < r.position <;> simp [decAbove, h]

@[simp] theorem decAbove_flag (q : Nat) (r : Role) :
    (decAbove q r).is_default = r.is_default := by
  by_cases h : q < r.position <;> simp [decAbove, h]

theorem rolesPop_none_imp {rs : List Role} {rid : Nat} (h : rolesPop rs rid = none) :
    ∀ r ∈ rs, r.id ≠ rid := by
  induction rs with
  | nil => intro r hr; cases hr
  | cons r rs ih =>
      intro x hx
      by_cases hid : r.id = rid
      · simp [rolesPop, hid] at h
      · simp only [rolesPop, beq_iff_eq, hid, if_false, Option.map_eq_none'] at h
        rcases List.mem_cons.mp hx with rfl | hx
        · exact hid
        · exact ih h x hx

theorem rolesInvariant_create {rs : List Role} {role : Role}
    (hinv : RolesInvariant rs) (hpos : role.position = 1)
    (hdef : role.is_default = false) (hfresh : ∀ r ∈ rs, r.id ≠ role.id) :
    RolesInvariant (addRoles rs role) := by
  obtain ⟨hperm, hiff, hnodup, rd, hrd, hrddef⟩ := hinv
  obtain ⟨m, hm⟩ : ∃ m, rs.length = m + 1 := by
    cases hlen : rs.length with
    | zero =>
        rw [List.length_eq_zero] at hlen
        subst hlen; cases hrd
    | succ m => exact ⟨m, rfl⟩
  have hins : addRoles rs role = rs.map bumpNonDefault ++ [role] := by
    unfold addRoles
    refine rolesInsert_fresh ?_
    intro r hr
    obtain ⟨r0, hr0, rfl⟩ := List.mem_map.mp hr
    simpa using hfresh r0 hr0
  have hposmap : (rs.map bumpNonDefault).map Role.position
      = (rs.map Role.position).map (fun p => if p = 0 then 0 else p + 1) := by
    simp only [List.map_map]
    refine List.map_congr_left fun r hr => ?_
    simp only [Function.comp]
    cases hd : r.is_default with
    | true =>
        have h0 : r.position = 0 := (hiff r hr).mp hd
        simp [bumpNonDefault, hd, h0]
    | false =>
        have h0 : r.position ≠ 0 := fun hc => by
          have := (hiff r hr).mpr hc
          rw [hd] at this
          exact Bool.noConfusion this
        simp [bumpNonDefault, hd, h0]
  refine ⟨?_, ?_, ?_, ?_⟩
  · rw [hins, List.map_append, hposmap, List.length_append, List.length_map, hm]
    simp only [List.map_cons, List.map_nil, hpos]
    exact perm_range_create (hm ▸ hperm)
  · intro r' hr'
    rw [hins] at hr'
    rcases List.mem_append.mp hr' with hr' | hr'
    · obtain ⟨r0, hr0, rfl⟩ := List.mem_map.mp hr'
      cases hd : r0.is_default with
      | true =>
          have h0 : r0.position = 0 := (hiff r0 hr0).mp hd
          simp [bumpNonDefault, hd, h0]
      | false =>
          have h0 : r0.position ≠ 0 := fun hc => by
            have := (hiff r0 hr0).mpr hc
            rw [hd] at this
            exact Bool.noConfusion this
          simp [bumpNonDefault, hd, h0]
    · rw [List.mem_singleton] at hr'
      subst hr'
      simp [hdef, hpos]
  · rw [hins, List.map_append]
    rw [show (rs.map bumpNonDefault).map Role.id = rs.map Role.id from by
      simp only [List.map_map]
      exact List.map_congr_left fun r _ => by simp [Function.comp]]
    rw [List.nodup_append]
    refine ⟨hnodup, List.nodup_singleton _, ?_⟩
    intro a ha hb
    simp only [List.map_cons, List.map_nil, List.mem_singleton] at hb
    obtain ⟨r0, hr0, hr0a⟩ := List.mem_map.mp ha
    exact hfresh r0 hr0 (hr0a.trans hb)
  · refine ⟨bumpNonDefault rd, ?_, by simp [hrddef]⟩
    rw [hins]
    exact List.mem_append_left _ (List.mem_map_of_mem _ hrd)

theorem rolesInvariant_delete {rs : List Role} {rid : Nat}
    (hinv : RolesInvariant rs) (hex : ∃ r ∈ rs, r.id = rid ∧ r.is_default = false) :
    RolesInvariant (applyRoleEvent rs (.delete rid)) := by
  obtain ⟨hperm, hiff, hnodup, rd, hrd, hrddef⟩ := hinv
  obtain ⟨r0, hr0, hr0id, hr0def⟩ := hex
  cases hrem : removeRoles rs rid with
  | none =>
      exfalso
      unfold removeRoles at hrem
      cases hpop : rolesPop rs rid with
      | some p => rw [hpop] at hrem; exact Option.noConfusion hrem
      | none => exact rolesPop_none_imp hpop r0 hr0 hr0id
  | some p =>
      obtain ⟨role, rest⟩ := p
      have happ : applyRoleEvent rs (.delete rid) = rest := by
        simp [applyRoleEvent, hrem]
      rw [happ]
      unfold removeRoles at hrem
      cases hpop : rolesPop rs rid with
      | none => rw [hpop] at hrem; exact Option.noConfusion hrem
      | some p0 =>
          rw [hpop] at hrem
          obtain ⟨role0, rest0⟩ := p0
          simp only [Option.some.injEq, Prod.mk.injEq] at hrem
          obtain ⟨hr1, hrest⟩ := hrem
          subst hr1
          obtain ⟨l₁, l₂, hsplit, hmid, hid, _⟩ := rolesPop_eq_some hpop
          have hrestdef : rest = (l₁ ++ l₂).map (decAbove role0.position) := by
            rw [← hrest, hmid]
          have hrole_mem : role0 ∈ rs := by
            rw [hsplit]
            exact List.mem_append_right _ (List.mem_cons_self _ _)
          have hroler0 : role0 = r0 :=
            List.inj_on_of_nodup_map hnodup hrole_mem hr0 (by rw [hid, hr0id])
          have hroledef : role0.is_default = false := by rw [hroler0]; exact hr0def
          have hq0 : role0.position ≠ 0 := fun hc => by
            have := (hiff role0 hrole_mem).mpr hc
            rw [hroledef] at this
            exact Bool.noConfusion this
          have hqlt : role0.position < rs.length := by
            have hqmem : role0.position ∈ rs.map Role.position :=
              List.mem_map_of_mem _ hrole_mem
            simpa [List.mem_range] using hperm.mem_iff.mp hqmem
          have hsp : rs.map Role.position
              = l₁.map Role.position ++ role0.position :: l₂.map Role.position := by
            rw [hsplit]; simp
          have hpermX : ((l₁ ++ l₂).map Role.position).Perm
              ((List.range rs.length).erase role0.position) := by
            have h1 : (role0.position :: (l₁ ++ l₂).map Role.position).Perm
                (rs.map Role.position) := by
              rw [hsp, List.map_append]
              exact List.perm_middle.symm
            exact (List.cons_perm_iff_perm_erase.mp (h1.trans hperm)).2
          have hlen : rest.length = rs.length - 1 := by
            rw [hrestdef, List.length_map, List.length_append]
            have : rs.length = l₁.length + (l₂.length + 1) := by
              rw [hsplit]; simp
            omega
          have hmapeq : rest.map Role.position
              = ((l₁ ++ l₂).map Role.position).map
                  (fun p => if role0.position < p then p - 1 else p) := by
            rw [hrestdef]
            simp only [List.map_map]
            refine List.map_congr_left fun r _ => ?_
            simp only [Function.comp, decAbove]
            by_cases hlt : role0.position < r.position <;> simp [hlt]
          refine ⟨?_, ?_, ?_, ?_⟩
          · rw [hmapeq, hlen]
            exact perm_range_delete hqlt hpermX
          · intro r' hr'
            rw [hrestdef] at hr'
            obtain ⟨x, hx, rfl⟩ := List.mem_map.mp hr'
            have hxmem : x ∈ rs := by
              rw [hsplit]
              rcases List.mem_append.mp hx with h | h
              · exact List.mem_append_left _ h
              · exact List.mem_append_right _ (List.mem_cons_of_mem _ h)
            cases hd : x.is_default with
            | true =>
                have h0 : x.position = 0 := (hiff x hxmem).mp hd
                simp [decAbove, hd, h0]
            | false =>
                have h0 : x.position ≠ 0 := fun hc => by
                  have := (hiff x hxmem).mpr hc
                  rw [hd] at this
                  exact Bool.noConfusion this
                by_cases hlt : role0.position < x.position <;>
                  (simp [decAbove, hlt, hd]; omega)
          · have hidseq : rest.map Role.id = (l₁ ++ l₂).map Role.id := by
              rw [hrestdef]
              simp only [List.map_map]
              exact List.map_congr_left fun r _ => by simp [Function.comp]
            rw [hidseq, List.map_append]
            have hsub : (l₁.map Role.id ++ l₂.map Role.id).Sublist
                (l₁.map Role.id ++ role0.id :: l₂.map Role.id) :=
              List.Sublist.append_left (List.sublist_cons_self _ _) _
            refine List.Nodup.sublist hsub ?_
            rw [show l₁.map Role.id ++ role0.id :: l₂.map Role.id = rs.map Role.id from by
              rw [hsplit]; simp]
            exact hnodup
          · have hrdmem : rd ∈ l₁ ++ l₂ := by
              rw [hsplit] at hrd
              rcases List.mem_append.mp hrd with h | h
              · exact List.mem_append_left _ h
              · rcases List.mem_cons.mp h with rfl | h
                · rw [hroledef] at hrddef; exact Bool.noConfusion hrddef
                · exact List.mem_append_right _ h
            refine ⟨decAbove role0.position rd, ?_, by simp [hrddef]⟩
            rw [hrestdef]
            exact List.mem_map_of_mem _ hrdmem

/-- C1 counterexample.  The claim quantifies over role-delete of any role
present in the guild, which includes the default role.  On a guild with
`@everyone` (id 1) at position 0 and a role (id 2) at position 1 — a state
satisfying the invariant — the sequence "delete role 1, create role 3 at
position 1" consists of operations the claim allows (the deleted role is
present; the created role carries position 1 and a fresh id), yet the final
role map has duplicate positions `[1, 1]`, so the invariant is not
preserved. -/
theorem roles_contiguity_counterexample :
    RolesInvariant [⟨1, 0, true⟩, ⟨2, 1, false⟩] ∧
    (∃ r ∈ [(⟨1, 0, true⟩ : Role), ⟨2, 1, false⟩], r.id = 1) ∧
    (∀ r ∈ applyRoleEvent [⟨1, 0, true⟩, ⟨2, 1, false⟩] (.delete 1), r.id ≠ 3) ∧
    (⟨3, 1, false⟩ : Role).position = 1 ∧
    ¬ RolesInvariant (applyRoleEvents [⟨1, 0, true⟩, ⟨2, 1, false⟩]
      [.delete 1, .create ⟨3, 1, false⟩]) := by
  decide

/-- C1 amended.  For every guild whose role map satisfies the contiguity
invariant (positions are exactly `0 .. N-1`, default role at position 0,
distinct ids), any sequence of role-create operations (a fresh-id,
non-default role carrying position 1 through `Guild._add_role`) and
role-delete operations of a present *non-default* role (through
`Guild._remove_role`) preserves the invariant. -/
theorem roles_contiguity_preserved (rs : List Role) (es : List RoleEvent)
    (hinv : RolesInvariant rs) (hok : eventsOK rs es) :
    RolesInvariant (applyRoleEvents rs es) := by
  induction es generalizing rs with
  | nil => exact hinv
  | cons e es ih =>
      obtain ⟨hok1, hoks⟩ := hok
      have hstep : RolesInvariant (applyRoleEvent rs e) := by
        cases e with
        | create role =>
            obtain ⟨hpos, hdef, hfresh⟩ := hok1
            exact rolesInvariant_create hinv hpos hdef hfresh
        | delete rid => exact rolesInvariant_delete hinv hok1
      exact ih _ hstep hoks

/-- Witness for `roles_contiguity_preserved` on a concrete guild and a
concrete create/delete sequence. -/
theorem roles_contiguity_preserved_witness :
    RolesInvariant (applyRoleEvents [⟨1, 0, true⟩, ⟨2, 1, false⟩]
      [.create ⟨3, 1, false⟩, .delete 2]) :=
  roles_contiguity_preserved _ _ (by decide) (by decide)

/-- Modelled from the spec: a member is "guild-scoped user metadata …
keyed by user id inside a guild" (class `Member` is not under `src/`); only
the key takes part in the claims, so only it is carried. -/
structure Member where
  id : Nat
deriving DecidableEq, Repr

/-- Modelled from the spec: a channel of the closed variant set
{Text, Voice, Category} with its snowflake id; the variants are carried as
the wire `type` tag (0 = text, 2 = voice, 4 = category). -/
structure Channel where
  id : Nat
  type : Nat
deriving DecidableEq, Repr

/-- Voice state of one user: the occupied channel (by id) and the
mute/deafen flags, per the spec's "parallel structure (channel occupied,
mute/deafen flags)". -/
structure VoiceState where
  channel : Option Nat
  self_mute : Bool
  self_deaf : Bool
  mute : Bool
  deaf : Bool
deriving DecidableEq, Repr

/-- Wire payload of a voice-state-update event: the target user, the raw
channel id (read by `_from_data`'s voice-state loop) and the flags. -/
structure VoiceStateData where
  user_id : Nat
  channel_id : Nat
  self_mute : Bool
  self_deaf : Bool
  mute : Bool
  deaf : Bool
deriving DecidableEq, Repr

/-- Modelled from the spec: `VoiceState(data=…, channel=…)` and
`VoiceState._update(data, channel)` (class `VoiceState` is not under
`src/`).  Both call sites in `Guild._update_voice_state` fix the contract
"apply new state": the flags come from the event payload, the occupied
channel from the caller's resolved channel. -/
def VoiceState.applyData (data : VoiceStateData) (channel : Option Nat) : VoiceState :=
  { channel := channel, self_mute := data.self_mute, self_deaf := data.self_deaf,
    mute := data.mute, deaf := data.deaf }

/-- Python `dict.__setitem__` for `_members`, keyed by `member.id`. -/
def membersInsert : List Member → Member → List Member
  | [], m => [m]
  | x :: xs, m => if x.id == m.id then m :: xs else x :: membersInsert xs m

/-- Python `dict.pop(key, None)` for `_members`: remove the entry if
present, do nothing otherwise. -/
def membersPopD : List Member → Nat → List Member
  | [], _ => []
  | x :: xs, mid => if x.id == mid then xs else x :: membersPopD xs mid

/-- Python `dict.__setitem__` for `_channels`, keyed by `channel.id`. -/
def channelsInsert : List Channel → Channel → List Channel
  | [], c => [c]
  | x :: xs, c => if x.id == c.id then c :: xs else x :: channelsInsert xs c

/-- Python `dict.get` for the `_voice_states` mapping keyed by user id. -/
def vsGet (l : List (Nat × VoiceState)) (uid : Nat) : Option VoiceState :=
  (l.find? (fun p => p.1 == uid)).map Prod.snd

/-- Python `dict.__setitem__` (or in-place mutation of the stored object)
for `_voice_states`: the key holds the given state afterwards. -/
def vsSet (l : List (Nat × VoiceState)) (uid : Nat) (v : VoiceState) :
    List (Nat × VoiceState) :=
  if l.any (fun p => p.1 == uid) then l.map (fun p => if p.1 == uid then (uid, v) else p)
  else l ++ [(uid, v)]

/-- Python `dict.pop(key)` on `_voice_states` restricted to its effect on
the mapping: the key is absent afterwards. -/
def vsRemove (l : List (Nat × VoiceState)) (uid : Nat) : List (Nat × VoiceState) :=
  l.filter (fun p => p.1 != uid)

/-- The guild aggregate of guild.py, restricted to the state the claims
read or mutate.  Slot names follow the source (`_roles`, `_members`,
`_channels`, `_voice_states`, `_member_count`, `_large`); `none` in
`_member_count` embeds the slot never having been assigned (reading it then
raises `AttributeError`).  Scalar enum-valued fields keep the raw wire
value, `emojis` and per-member presence data are external to the claims. -/
structure Guild where
  id : Nat
  name : Option String
  region : Option Nat
  verification_level : Option Nat
  explicit_content_filter : Nat
  afk_timeout : Option Nat
  icon : Option String
  unavailable : Bool
  mfa_level : Option Nat
  features : List String
  splash : Option String
  _system_channel_id : Option Nat
  _roles : List Role
  _channels : List Channel
  _members : List Member
  _voice_states : List (Nat × VoiceState)
  _member_count : Option Nat
  _large : Option Bool
  owner_id : Option Nat
  afk_channel : Option Channel
deriving DecidableEq, Repr

/-- `Guild.get_channel`: `self._channels.get(channel_id)`; a `none` key
finds nothing. -/
def Guild.get_channel (g : Guild) (channel_id : Option Nat) : Option Channel :=
  match channel_id with
  | none => none
  | some cid => g._channels.find? (fun c => c.id == cid)

/-- `Guild.get_member`: `self._members.get(user_id)`. -/
def Guild.get_member (g : Guild) (user_id : Nat) : Option Member :=
  g._members.find? (fun m => m.id == user_id)

/-- `Guild._add_member`: `self._members[member.id] = member`. -/
def Guild._add_member (g : Guild) (m : Member) : Guild :=
  { g with _members := membersInsert g._members m }

/-- `Guild._remove_member` (guild.py lines 146-147):
`self._members.pop(member.id, None)`. -/
def Guild._remove_member (g : Guild) (m : Member) : Guild :=
  { g with _members := membersPopD g._members m.id }

/-- `Guild._add_role` lifted to the guild aggregate. -/
def Guild._add_role (g : Guild) (role : Role) : Guild :=
  { g with _roles := addRoles g._roles role }

/-- `Guild._remove_role` lifted to the guild aggregate (`none` embeds the
`KeyError`). -/
def Guild._remove_role (g : Guild) (rid : Nat) : Option (Role × Guild) :=
  (removeRoles g._roles rid).map (fun p => (p.1, { g with _roles := p.2 }))

/-- `Guild._update_voice_state` (guild.py lines 155-174).  The `try` block
succeeds exactly when the user already has a cached state: with no
resolvable channel the state is `pop`ped, otherwise updated in place; the
`before` snapshot is the shallow copy taken prior to the in-place
`_update`.  On `KeyError` (no cached state) a fresh state is built from the
payload, stored, and `before` is built from the same payload with no
channel.  Returns (guild after the merge, member, before, after). -/
def Guild._update_voice_state (g : Guild) (data : VoiceStateData)
    (channel_id : Option Nat) : Guild × Option Member × VoiceState × VoiceState :=
  let user_id := data.user_id
  let channel := g.get_channel channel_id
  match vsGet g._voice_states user_id with
  | some st =>
      let before := st
      let after := VoiceState.applyData data (channel.map Channel.id)
      let store := match channel with
        | none => vsRemove g._voice_states user_id
        | some _ => vsSet g._voice_states user_id after
      ({ g with _voice_states := store }, g.get_member user_id, before, after)
  | none =>
      let after := VoiceState.applyData data (channel.map Channel.id)
      let before := VoiceState.applyData data none
      ({ g with _voice_states := vsSet g._voice_states user_id after },
        g.get_member user_id, before, after)

/-- `Guild.large` property (guild.py lines 268-280): a cached `_large`
answer wins; otherwise compare `_member_count` with the fixed threshold
250, falling back to the number of locally cached members when the
`_member_count` slot was never assigned (`AttributeError` branch). -/
def Guild.large (g : Guild) : Bool :=
  match g._large with
  | some b => b
  | none =>
      match g._member_count with
      | some c => decide (250 ≤ c)
      | none => decide (250 ≤ g._members.length)

theorem membersPopD_of_absent {ms : List Member} {mid : Nat}
    (h : ∀ x ∈ ms, x.id ≠ mid) : membersPopD ms mid = ms := by
  induction ms with
  | nil => rfl
  | cons x xs ih =>
      have hx : x.id ≠ mid := h x (by simp)
      simp only [membersPopD, beq_iff_eq, hx, if_false, List.cons.injEq, true_and]
      exact ih (fun y hy => h y (by simp [hy]))

theorem vsGet_vsRemove (l : List (Nat × VoiceState)) (uid : Nat) :
    vsGet (vsRemove l uid) uid = none := by
  unfold vsGet vsRemove
  rw [List.find?_eq_none.mpr]
  · rfl
  · intro p hp
    have := (List.mem_filter.mp hp).2
    simpa using this

theorem vsGet_vsSet (l : List (Nat × VoiceState)) (uid : Nat) (v : VoiceState) :
    vsGet (vsSet l uid v) uid = some v := by
  induction l with
  | nil => simp [vsSet, vsGet]
  | cons p l ih =>
      by_cases hp : p.1 = uid
      · simp [vsSet, vsGet, hp]
      · cases hany : l.any (fun q => q.1 == uid) with
        | true =>
            have ihs := ih
            simp only [vsSet, hany, if_true] at ihs
            have hmap : (p :: l).map (fun q => if q.1 == uid then (uid, v) else q)
                = p :: l.map (fun q => if q.1 == uid then (uid, v) else q) := by
              simp [hp]
            have hany' : ((p :: l).any fun q => q.1 == uid) = true := by
              simp [List.any_cons, hany]
            simp only [vsSet, hany', if_true, hmap]
            unfold vsGet
            rw [List.find?_cons_of_neg _ (by simpa using hp)]
            exact ihs
        | false =>
            have hany' : ((p :: l).any fun q => q.1 == uid) = false := by
              simp [List.any_cons, hany, hp]
            simp only [vsSet, hany', Bool.false_eq_true, if_false]
            have hnone : l.find? (fun q => q.1 == uid) = none := by
              rw [List.find?_eq_none]
              intro q hq
              have := List.any_eq_false.mp hany q hq
              simpa using this
            unfold vsGet
            rw [List.cons_append, List.find?_cons_of_neg _ (by simpa using hp),
              List.find?_append, hnone]
            simp

/-- C7.  A member-remove for a user id not present in the member map is a
no-op: `_members.pop(member.id, None)` raises nothing, and neither the
member map nor the cached `_member_count` changes (the whole guild record
is unchanged). -/
theorem remove_member_unknown_noop (g : Guild) (m : Member)
    (h : g.get_member m.id = none) :
    g._remove_member m = g ∧
    (g._remove_member m)._members = g._members ∧
    (g._remove_member m)._member_count = g._member_count := by
  have habs : ∀ x ∈ g._members, x.id ≠ m.id := by
    intro x hx
    have := List.find?_eq_none.mp h x hx
    simpa using this
  have hpop : membersPopD g._members m.id = g._members := membersPopD_of_absent habs
  have hg : g._remove_member m = g := by
    unfold Guild._remove_member
    rw [hpop]
  exact ⟨hg, by rw [hg], by rw [hg]⟩

/-- Witness for `remove_member_unknown_noop` on a concrete guild. -/
theorem remove_member_unknown_noop_witness :
    Guild._remove_member
        ⟨10, some "g", none, none, 0, none, none, false, none, [], none, none,
          [⟨10, 0, true⟩], [⟨100, 0⟩], [⟨42⟩], [], some 3, some false, some 42, none⟩
        ⟨77⟩ =
      ⟨10, some "g", none, none, 0, none, none, false, none, [], none, none,
        [⟨10, 0, true⟩], [⟨100, 0⟩], [⟨42⟩], [], some 3, some false, some 42, none⟩ :=
  (remove_member_unknown_noop _ ⟨77⟩ (by decide)).1

/-- A concrete guild with one text channel (id 100), one member (id 42) and
an empty voice-state map, used to exercise the voice-state merge. -/
def sampleGuild : Guild :=
  ⟨10, some "g", none, none, 0, none, none, false, none, [], none, none,
    [⟨10, 0, true⟩], [⟨100, 0⟩], [⟨42⟩], [], some 3, some false, some 42, none⟩

/-- C5 counterexample.  When no prior voice state exists, the `except
KeyError` branch builds `before = VoiceState(data=data, channel=None)`:
the flags of the incoming payload are carried into the snapshot.  On a
guild with no cached voice state for user 42 and a payload with
`self_mute = true`, the returned `before` has `self_mute = true` and no
channel — it is not the empty state (all flags off) the claim describes. -/
theorem voice_state_before_counterexample :
    vsGet sampleGuild._voice_states 42 = none ∧
    (sampleGuild._update_voice_state ⟨42, 100, true, false, false, false⟩
      (some 100)).2.2.1 = ⟨none, true, false, false, false⟩ ∧
    (⟨none, true, false, false, false⟩ : VoiceState) ≠
      ⟨none, false, false, false, false⟩ := by
  decide

/-- C5 amended.  `Guild._update_voice_state` returns a `before` snapshot
structurally equal to the voice state cached for the user immediately prior
to the mutation; when no prior state existed, `before` is a synthesized
state with no channel occupied whose flags are those of the incoming
payload (`VoiceState(data=data, channel=None)`). -/
theorem voice_state_before_snapshot (g : Guild) (data : VoiceStateData)
    (channel_id : Option Nat) :
    (∀ st, vsGet g._voice_states data.user_id = some st →
      (g._update_voice_state data channel_id).2.2.1 = st) ∧
    (vsGet g._voice_states data.user_id = none →
      (g._update_voice_state data channel_id).2.2.1 =
        VoiceState.applyData data none) := by
  constructor
  · intro st hst
    simp [Guild._update_voice_state, hst]
  · intro hnone
    simp [Guild._update_voice_state, hnone]

/-- Witness for `voice_state_before_snapshot` on a concrete guild with no
prior state. -/
theorem voice_state_before_snapshot_witness :
    (sampleGuild._update_voice_state ⟨42, 100, true, false, false, false⟩
      (some 100)).2.2.1 =
      VoiceState.applyData ⟨42, 100, true, false, false, false⟩ none :=
  (voice_state_before_snapshot sampleGuild _ (some 100)).2 (by decide)

/-- C6 counterexample.  A voice-state-update whose target channel resolves
to no channel does *not* always leave the store without an entry for the
user: when no entry existed before, the `pop` raises `KeyError` and the
`except` branch *inserts* a fresh state under the user's id.  Concretely,
on a guild with no cached voice state for user 42 and an unresolvable
channel id 999, the store holds an entry for 42 after the call. -/
theorem voice_state_evict_counterexample :
    vsGet sampleGuild._voice_states 42 = none ∧
    sampleGuild.get_channel (some 999) = none ∧
    vsGet ((sampleGuild._update_voice_state ⟨42, 999, true, false, false, false⟩
      (some 999)).1)._voice_states 42 =
      some ⟨none, true, false, false, false⟩ := by
  decide

/-- C6 amended.  When the target channel of a voice-state-update resolves
to no channel: if the user had a cached voice state it is evicted from the
store, and if the user had none, a fresh state carrying no channel is
inserted under the user's id. -/
theorem voice_state_channel_none (g : Guild) (data : VoiceStateData)
    (channel_id : Option Nat) (hch : g.get_channel channel_id = none) :
    (∀ st, vsGet g._voice_states data.user_id = some st →
      vsGet ((g._update_voice_state data channel_id).1)._voice_states
        data.user_id = none) ∧
    (vsGet g._voice_states data.user_id = none →
      vsGet ((g._update_voice_state data channel_id).1)._voice_states
        data.user_id = some (VoiceState.applyData data none)) := by
  constructor
  · intro st hst
    simp only [Guild._update_voice_state, hch, hst]
    exact vsGet_vsRemove _ _
  · intro hnone
    simp only [Guild._update_voice_state, hch, hnone, Option.map_none']
    exact vsGet_vsSet _ _ _

/-- Witness for `voice_state_channel_none` on a concrete guild,
exercising the insertion branch. -/
theorem voice_state_channel_none_witness :
    vsGet ((sampleGuild._update_voice_state ⟨42, 999, false, true, false, false⟩
      (some 999)).1)._voice_states 42 =
      some (VoiceState.applyData ⟨42, 999, false, true, false, false⟩ none) :=
  (voice_state_channel_none sampleGuild _ (some 999) (by decide)).2 (by decide)

/-- Wire payload of one role inside a guild payload.  Modelled from the
spec: `Role(guild=…, data=…, state=…)` builds the role entity from this
payload (class `Role` is not under `src/`). -/
structure RoleData where
  id : Nat
  position : Nat
  is_default : Bool
deriving DecidableEq, Repr

/-- Role entity built from its wire payload. -/
def Role.ofData (d : RoleData) : Role :=
  ⟨d.id, d.position, d.is_default⟩

/-- Wire payload of one member inside a guild payload; only the user id
takes part in the claims.  Modelled from the spec (class `Member` is not
under `src/`). -/
structure MemberData where
  id : Nat
deriving DecidableEq, Repr

/-- Member entity built from its wire payload. -/
def Member.ofData (d : MemberData) : Member :=
  ⟨d.id⟩

/-- Wire payload of one channel inside a guild payload: snowflake id plus
the wire `type` tag (0 = text, 2 = voice, 4 = category). -/
structure ChannelData where
  id : Nat
  type : Nat
deriving DecidableEq, Repr

/-- Wire payload of a guild-create / guild-update event, restricted to the
fields `Guild._from_data` and `Guild._sync` read.  `none` embeds a key
absent from the payload.  Enum-valued fields carry the raw wire value
(`try_enum` passes unrecognized values through).  The `presences` list only
mutates per-member presence metadata, which is outside the embedded state,
and `emojis` go through the external `state.store_emoji` collaborator; both
are therefore not carried. -/
structure GuildData where
  id : Nat
  name : Option String
  region : Option Nat
  verification_level : Option Nat
  explicit_content_filter : Option Nat
  afk_timeout : Option Nat
  icon : Option String
  unavailable : Option Bool
  member_count : Option Nat
  mfa_level : Option Nat
  features : Option (List String)
  splash : Option String
  system_channel_id : Option Nat
  roles : Option (List RoleData)
  members : Option (List MemberData)
  large : Option Bool
  channels : Option (List ChannelData)
  voice_states : Option (List VoiceStateData)
  owner_id : Option Nat
  afk_channel_id : Option Nat
deriving DecidableEq, Repr

/-- `Guild._sync` (guild.py lines 239-258): adopt `data['large']` when the
key is present (`try`/`except KeyError`); apply presences (not carried
here, they only touch member presence metadata); when `'channels' in data`,
add a channel object for each entry whose type tag is text, voice or
category. -/
def Guild._sync (g : Guild) (data : GuildData) : Guild :=
  let g1 := match data.large with
    | some b => { g with _large := some b }
    | none => g
  match data.channels with
  | none => g1
  | some cs =>
      { g1 with _channels := cs.foldl (fun acc c =>
          if c.type == 0 then channelsInsert acc ⟨c.id, c.type⟩
          else if c.type == 2 then channelsInsert acc ⟨c.id, c.type⟩
          else if c.type == 4 then channelsInsert acc ⟨c.id, c.type⟩
          else acc) g1._channels }

/-- `Guild._from_data` (guild.py lines 199-237), sequencing the source's
assignments: store `member_count` only when truthy (`if member_count:`, so
0 behaves like an absent key); overwrite every scalar field with the
payload's value (absent keys become `None` / the `get` default); rebuild
`_roles` from scratch; add payload members; run `_sync`; then
`self._large = None if member_count is None else self._member_count >= 250`
(reading `_member_count` raises `AttributeError`, embedded as `none`, when
the slot was never assigned); finally set `owner_id`, resolve
`afk_channel`, and replay the payload's voice states. -/
def Guild._from_data (g : Guild) (guild : GuildData) : Option Guild :=
  let member_count := guild.member_count
  let g1 := if member_count.getD 0 ≠ 0 then { g with _member_count := member_count } else g
  let g2 := { g1 with
    name := guild.name,
    region := guild.region,
    verification_level := guild.verification_level,
    explicit_content_filter := guild.explicit_content_filter.getD 0,
    afk_timeout := guild.afk_timeout,
    icon := guild.icon,
    unavailable := guild.unavailable.getD false,
    id := guild.id,
    _roles := (guild.roles.getD []).foldl (fun acc r => rolesInsert acc (Role.ofData r)) [],
    mfa_level := guild.mfa_level,
    features := guild.features.getD [],
    splash := guild.splash,
    _system_channel_id := guild.system_channel_id }
  let g3 := (guild.members.getD []).foldl (fun acc m => acc._add_member (Member.ofData m)) g2
  let g4 := g3._sync guild
  let upd : Option (Option Bool) := match member_count with
    | none => some none
    | some _ =>
        match g4._member_count with
        | none => none
        | some stored => some (some (decide (250 ≤ stored)))
  match upd with
  | none => none
  | some lg =>
      let g5 := { g4 with _large := lg }
      let g6 := { g5 with
        owner_id := guild.owner_id,
        afk_channel := g5.get_channel guild.afk_channel_id }
      some ((guild.voice_states.getD []).foldl
        (fun acc vd => (acc._update_voice_state vd (some vd.channel_id)).1) g6)

/-- `Guild.__init__`: fresh empty maps and unassigned slots, then
`_from_data` on the snapshot payload. -/
def Guild.init (data : GuildData) : Option Guild :=
  Guild._from_data
    ⟨0, none, none, none, 0, none, none, false, none, [], none, none,
      [], [], [], [], none, none, none, none⟩ data

theorem uvs_guild_eq (g : Guild) (data : VoiceStateData) (cid : Option Nat) :
    (g._update_voice_state data cid).1
      = { g with _voice_states := (g._update_voice_state data cid).1._voice_states } := by
  cases h : vsGet g._voice_states data.user_id with
  | some st =>
      cases hch : g.get_channel cid <;> simp [Guild._update_voice_state, h, hch]
  | none => simp [Guild._update_voice_state, h]

theorem voiceFold_proj {α : Sort _} (f : Guild → α)
    (hf : ∀ g vs, f { g with _voice_states := vs } = f g)
    (l : List VoiceStateData) (g : Guild) :
    f (l.foldl (fun acc vd => (acc._update_voice_state vd (some vd.channel_id)).1) g)
      = f g := by
  induction l generalizing g with
  | nil => rfl
  | cons vd l ih =>
      rw [List.foldl_cons, ih, uvs_guild_eq]
      exact hf _ _

theorem membersFold_proj {α : Sort _} (f : Guild → α)
    (hf : ∀ g ms, f { g with _members := ms } = f g)
    (l : List MemberData) (g : Guild) :
    f (l.foldl (fun acc m => acc._add_member (Member.ofData m)) g) = f g := by
  induction l generalizing g with
  | nil => rfl
  | cons m l ih =>
      rw [List.foldl_cons, ih]
      exact hf _ _

theorem sync_proj {α : Sort _} (f : Guild → α)
    (hf : ∀ g lg ch, f { g with _large := lg, _channels := ch } = f g)
    (g : Guild) (d : GuildData) : f (g._sync d) = f g := by
  cases hL : d.large with
  | none =>
      cases hC : d.channels with
      | none => simp only [Guild._sync, hL, hC]
      | some cs =>
          simp only [Guild._sync, hL, hC]
          exact hf _ _ _
  | some b =>
      cases hC : d.channels with
      | none =>
          simp only [Guild._sync, hL, hC]
          exact hf _ _ _
      | some cs =>
          simp only [Guild._sync, hL, hC]
          exact hf _ _ _

/-- C4 counterexample.  A guild-update payload carrying only `id` (all
other keys absent) does clear fields: `self.name = guild.get('name')`
stores `None` over the prior name.  On a guild whose name is `"g"`, the
update leaves a guild whose name is `None`. -/
theorem guild_update_clears_counterexample :
    sampleGuild.name = some "g" ∧
    (⟨5, none, none, none, none, none, none, none, none, none, none, none,
      none, none, none, none, none, none, none, none⟩ : GuildData).name = none ∧
    (sampleGuild._from_data
      ⟨5, none, none, none, none, none, none, none, none, none, none, none,
        none, none, none, none, none, none, none, none⟩).map Guild.name
      = some none := by
  decide

/-- C4 amended.  `Guild._from_data` on a partial payload *overwrites* every
scalar field with the payload's value — a field absent from the payload is
reset to `None` (or the `get` default), not retained; the one exception is
`_member_count`, which keeps its prior value when `member_count` is absent
from the payload. -/
theorem guild_update_field_semantics (g : Guild) (d : GuildData) (g' : Guild)
    (h : g._from_data d = some g') :
    g'.name = d.name ∧ g'.icon = d.icon ∧ g'.region = d.region ∧
    g'.verification_level = d.verification_level ∧
    g'.afk_timeout = d.afk_timeout ∧ g'.mfa_level = d.mfa_level ∧
    g'.splash = d.splash ∧
    g'.explicit_content_filter = d.explicit_content_filter.getD 0 ∧
    g'.unavailable = d.unavailable.getD false ∧
    (d.member_count = none → g'._member_count = g._member_count) := by
  simp only [Guild._from_data] at h
  split at h
  · exact absurd h (by simp)
  · rw [Option.some_inj] at h
    subst h
    refine ⟨?_, ?_, ?_, ?_, ?_, ?_, ?_, ?_, ?_, ?_⟩
    · simp only [voiceFold_proj Guild.name (fun _ _ => rfl),
        sync_proj Guild.name (fun _ _ _ => rfl),
        membersFold_proj Guild.name (fun _ _ => rfl)]
    · simp only [voiceFold_proj Guild.icon (fun _ _ => rfl),
        sync_proj Guild.icon (fun _ _ _ => rfl),
        membersFold_proj Guild.icon (fun _ _ => rfl)]
    · simp only [voiceFold_proj Guild.region (fun _ _ => rfl),
        sync_proj Guild.region (fun _ _ _ => rfl),
        membersFold_proj Guild.region (fun _ _ => rfl)]
    · simp only [voiceFold_proj Guild.verification_level (fun _ _ => rfl),
        sync_proj Guild.verification_level (fun _ _ _ => rfl),
        membersFold_proj Guild.verification_level (fun _ _ => rfl)]
    · simp only [voiceFold_proj Guild.afk_timeout (fun _ _ => rfl),
        sync_proj Guild.afk_timeout (fun _ _ _ => rfl),
        membersFold_proj Guild.afk_timeout (fun _ _ => rfl)]
    · simp only [voiceFold_proj Guild.mfa_level (fun _ _ => rfl),
        sync_proj Guild.mfa_level (fun _ _ _ => rfl),
        membersFold_proj Guild.mfa_level (fun _ _ => rfl)]
    · simp only [voiceFold_proj Guild.splash (fun _ _ => rfl),
        sync_proj Guild.splash (fun _ _ _ => rfl),
        membersFold_proj Guild.splash (fun _ _ => rfl)]
    · simp only [voiceFold_proj Guild.explicit_content_filter (fun _ _ => rfl),
        sync_proj Guild.explicit_content_filter (fun _ _ _ => rfl),
        membersFold_proj Guild.explicit_content_filter (fun _ _ => rfl)]
    · simp only [voiceFold_proj Guild.unavailable (fun _ _ => rfl),
        sync_proj Guild.unavailable (fun _ _ _ => rfl),
        membersFold_proj Guild.unavailable (fun _ _ => rfl)]
    · intro hmc
      simp only [voiceFold_proj Guild._member_count (fun _ _ => rfl),
        sync_proj Guild._member_count (fun _ _ _ => rfl),
        membersFold_proj Guild._member_count (fun _ _ => rfl), hmc,
        Option.getD_none]
      simp

/-- Witness for `guild_update_field_semantics` on a concrete guild and an
id-only payload (the resulting guild record is spelled out). -/
theorem guild_update_field_semantics_witness :
    Guild.name ⟨5, none, none, none, 0, none, none, false, none, [], none, none,
      [], [⟨100, 0⟩], [⟨42⟩], [], some 3, none, none, none⟩ = none :=
  (guild_update_field_semantics sampleGuild
    ⟨5, none, none, none, none, none, none, none, none, none, none, none,
      none, none, none, none, none, none, none, none⟩
    ⟨5, none, none, none, 0, none, none, false, none, [], none, none,
      [], [⟨100, 0⟩], [⟨42⟩], [], some 3, none, none, none⟩ (by decide)).1

/-- C8 counterexample.  The source tests `if member_count:` (truthiness)
before storing the count but `member_count is None` before computing the
large flag, so a payload with `member_count = 0` (present but falsy) does
not update `_member_count` yet does compute `_large` — from the *stale*
stored count.  On a guild whose stored count is 300, a payload carrying
`member_count = 0` yields `_large = True`, not `0 >= 250 = False` as the
claim's formula requires. -/
theorem large_flag_counterexample :
    (⟨5, none, none, none, none, none, none, none, some 0, none, none, none,
      none, none, none, none, none, none, none, none⟩ : GuildData).member_count
      = some 0 ∧
    (Guild._from_data
      ⟨10, some "g", none, none, 0, none, none, false, none, [], none, none,
        [⟨10, 0, true⟩], [⟨100, 0⟩], [⟨42⟩], [], some 300, some true, some 42, none⟩
      ⟨5, none, none, none, none, none, none, none, some 0, none, none, none,
        none, none, none, none, none, none, none, none⟩).map Guild._large
      = some (some true) ∧
    (some true : Option Bool) ≠ some (decide ((250 : Nat) ≤ 0)) := by
  decide

/-- C8 amended.  A full snapshot payload lacking `member_count` leaves
`_large` undetermined (`None`) — even overriding a `large` key applied by
`_sync` — and the `large` property then resolves on demand against the
fixed threshold 250, using `_member_count` when the slot is assigned and
the number of locally cached members otherwise; a payload whose
`member_count` is present *and nonzero* determines `_large` as
`member_count >= 250`. -/
theorem large_flag_semantics (g : Guild) (d : GuildData) :
    (d.member_count = none →
      ∃ g', g._from_data d = some g' ∧ g'._large = none) ∧
    (∀ (c : Nat) (g' : Guild), d.member_count = some c → c ≠ 0 →
      g._from_data d = some g' → g'._large = some (decide (250 ≤ c))) ∧
    (∀ g'' : Guild, g''._large = none → g''._member_count = none →
      g''.large = decide (250 ≤ g''._members.length)) ∧
    (∀ (g'' : Guild) (c : Nat), g''._large = none → g''._member_count = some c →
      g''.large = decide (250 ≤ c)) := by
  refine ⟨?_, ?_, ?_, ?_⟩
  · intro hmc
    cases hres : g._from_data d with
    | none =>
        exfalso
        simp only [Guild._from_data, hmc] at hres
        exact absurd hres (by simp)
    | some g' =>
        refine ⟨g', rfl, ?_⟩
        simp only [Guild._from_data, hmc] at hres
        rw [Option.some_inj] at hres
        subst hres
        simp only [voiceFold_proj Guild._large (fun _ _ => rfl)]
  · intro c g' hmc hc h
    simp only [Guild._from_data, hmc, Option.getD_some, ne_eq, hc,
      not_false_eq_true, if_true] at h
    rw [sync_proj Guild._member_count (fun _ _ _ => rfl),
      membersFold_proj Guild._member_count (fun _ _ => rfl)] at h
    simp only [Option.some_inj] at h
    subst h
    simp only [voiceFold_proj Guild._large (fun _ _ => rfl)]
  · intro g'' h1 h2
    simp [Guild.large, h1, h2]
  · intro g'' c h1 h2
    simp [Guild.large, h1, h2]

/-- Witness for `large_flag_semantics`: the on-demand resolution of the
`large` property on a concrete guild with an undetermined flag and a
stored member count of 300. -/
theorem large_flag_semantics_witness :
    Guild.large ⟨10, some "g", none, none, 0, none, none, false, none, [], none,
      none, [⟨10, 0, true⟩], [⟨100, 0⟩], [⟨42⟩], [], some 300, none, some 42, none⟩
      = decide ((250 : Nat) ≤ 300) :=
  (large_flag_semantics sampleGuild
    ⟨5, none, none, none, none, none, none, none, none, none, none, none,
      none, none, none, none, none, none, none, none⟩).2.2.2
    ⟨10, some "g", none, none, 0, none, none, false, none, [], none,
      none, [⟨10, 0, true⟩], [⟨100, 0⟩], [⟨42⟩], [], some 300, none, some 42, none⟩
    300 rfl rfl

/-- `DISCORD_EPOCH` (utils.py line 40): the fixed epoch in milliseconds. -/
def DISCORD_EPOCH : Nat := 1420070400000

/-- `datetime.datetime.utcfromtimestamp`, embedded exactly: a UTC datetime
is represented by its POSIX timestamp in seconds as a rational. -/
def utcfromtimestamp (secs : ℚ) : ℚ := secs

/-- `snowflake_time` (utils.py lines 126-128):
`datetime.utcfromtimestamp(((id >> 22) + DISCORD_EPOCH) / 1000)`, with the
division carried out exactly over the rationals. -/
def snowflake_time (id : Nat) : ℚ :=
  utcfromtimestamp ((((id >>> 22) + DISCORD_EPOCH : Nat) : ℚ) / 1000)

/-- Milliseconds since the Unix epoch of an (exactly represented)
datetime. -/
def msSinceEpoch (t : ℚ) : ℚ := t * 1000

/-- C9.  For every 64-bit snowflake, the datetime returned by
`snowflake_time` sits at exactly `(id >> 22) + 1420070400000` milliseconds
past the Unix epoch, and the shifted value fits in the top 42 bits. -/
theorem snowflake_time_ms (id : Nat) (h : id < 2 ^ 64) :
    msSinceEpoch (snowflake_time id) = ((id >>> 22 : Nat) : ℚ) + 1420070400000 ∧
    (id >>> 22) < 2 ^ 42 := by
  constructor
  · unfold msSinceEpoch snowflake_time utcfromtimestamp DISCORD_EPOCH
    push_cast
    field_simp
  · rw [Nat.shiftRight_eq_div_pow]
    rw [Nat.div_lt_iff_lt_mul (by positivity)]
    calc id < 2 ^ 64 := h
    _ = 2 ^ 42 * 2 ^ 22 := by norm_num

/-- Witness for `snowflake_time_ms` at a concrete snowflake. -/
theorem snowflake_time_ms_witness :
    msSinceEpoch (snowflake_time 177700) =
      ((177700 >>> 22 : Nat) : ℚ) + 1420070400000 ∧ (177700 >>> 22) < 2 ^ 42 :=
  snowflake_time_ms 177700 (by norm_num)

/-- `bisect.bisect_left` of the Python standard library, by its contract on
the sorted arrays `SnowflakeList` maintains: the leftmost index at which
the element can be inserted keeping the array sorted (= the number of
leading entries strictly below the element). -/
def bisect_left : List Nat → Nat → Nat
  | [], _ => 0
  | y :: ys, x => if y < x then bisect_left ys x + 1 else 0

/-- Python `list.insert(i, x)`: insert before index `i`, appending when `i`
is past the end. -/
def listInsert : Nat → Nat → List Nat → List Nat
  | 0, x, l => x :: l
  | _ + 1, x, [] => [x]
  | n + 1, x, y :: l => y :: listInsert n x l

/-- `SnowflakeList.__new__` (utils.py lines 310-311): take the data as-is
when the caller vouches it is sorted, else sort it. -/
def SnowflakeList.new (data : List Nat) (is_sorted : Bool) : List Nat :=
  if is_sorted then data else data.mergeSort

/-- `SnowflakeList.add` (utils.py lines 313-315): insert at the
`bisect_left` position. -/
def SnowflakeList.add (a : List Nat) (element : Nat) : List Nat :=
  listInsert (bisect_left a element) element a

/-- `SnowflakeList.get` (utils.py lines 317-319):
`self[i] if i != len(self) and self[i] == element else None`. -/
def SnowflakeList.get (a : List Nat) (element : Nat) : Option Nat :=
  let i := bisect_left a element
  if i ≠ a.length ∧ a.getD i 0 = element then some (a.getD i 0) else none

/-- `SnowflakeList.has` (utils.py lines 321-323):
`i != len(self) and self[i] == element`. -/
def SnowflakeList.has (a : List Nat) (element : Nat) : Bool :=
  let i := bisect_left a element
  decide (i ≠ a.length) && (a.getD i 0 == element)

theorem add_eq_orderedInsert (a : List Nat) (x : Nat) :
    SnowflakeList.add a x = List.orderedInsert (· ≤ ·) x a := by
  induction a with
  | nil => rfl
  | cons y ys ih =>
      by_cases h : y < x
      · simp only [SnowflakeList.add, bisect_left, if_pos h, listInsert,
          List.orderedInsert]
        rw [if_neg (by omega)]
        simp only [SnowflakeList.add] at ih
        rw [ih]
      · simp only [SnowflakeList.add, bisect_left, if_neg h, listInsert,
          List.orderedInsert]
        rw [if_pos (by omega)]

theorem sorted_add {a : List Nat} (h : a.Sorted (· ≤ ·)) (x : Nat) :
    (SnowflakeList.add a x).Sorted (· ≤ ·) := by
  rw [add_eq_orderedInsert]
  exact List.Sorted.orderedInsert x a h

theorem add_perm (a : List Nat) (x : Nat) : (SnowflakeList.add a x).Perm (x :: a) := by
  rw [add_eq_orderedInsert]
  exact List.perm_orderedInsert _ _ _

theorem has_iff_mem {a : List Nat} (h : a.Sorted (· ≤ ·)) (x : Nat) :
    SnowflakeList.has a x = true ↔ x ∈ a := by
  induction a with
  | nil => simp [SnowflakeList.has, bisect_left]
  | cons y ys ih =>
      obtain ⟨hy, hys⟩ := List.sorted_cons.mp h
      by_cases hlt : y < x
      · have hstep : SnowflakeList.has (y :: ys) x = SnowflakeList.has ys x := by
          simp [SnowflakeList.has, bisect_left, hlt]
        rw [hstep, ih hys]
        constructor
        · exact fun hm => List.mem_cons_of_mem _ hm
        · intro hm
          rcases List.mem_cons.mp hm with rfl | hm
          · omega
          · exact hm
      · have hstep : SnowflakeList.has (y :: ys) x = (y == x) := by
          simp [SnowflakeList.has, bisect_left, hlt]
        rw [hstep]
        constructor
        · intro he
          rw [show y = x from by simpa using he]
          exact List.mem_cons_self _ _
        · intro hm
          rcases List.mem_cons.mp hm with rfl | hm
          · simp
          · have := hy x hm
            have : y = x := by omega
            simp [this]

theorem get_eq {a : List Nat} (h : a.Sorted (· ≤ ·)) (x : Nat) :
    SnowflakeList.get a x = if x ∈ a then some x else none := by
  by_cases hmem : x ∈ a
  · rw [if_pos hmem]
    have hh : SnowflakeList.has a x = true := (has_iff_mem h x).mpr hmem
    simp only [SnowflakeList.has, Bool.and_eq_true, decide_eq_true_eq,
      beq_iff_eq] at hh
    simp only [SnowflakeList.get]
    rw [if_pos ⟨hh.1, hh.2⟩, hh.2]
  · rw [if_neg hmem]
    simp only [SnowflakeList.get]
    rw [if_neg]
    intro hc
    exact hmem ((has_iff_mem h x).mp (by
      simp only [SnowflakeList.has, Bool.and_eq_true, decide_eq_true_eq, beq_iff_eq]
      exact ⟨hc.1, hc.2⟩))

/-- C10.  A `SnowflakeList` built from any initial collection (with the
constructor's sorting applied unless the caller vouches the data is already
sorted) and subjected to any sequence of `add` calls is at all times sorted
in non-decreasing order and holds exactly the initial and added elements;
`has` answers membership exactly, and `get` returns the element exactly
when it is stored and `None` otherwise. -/
theorem snowflake_list_invariant (data : List Nat) (s : Bool)
    (adds : List Nat) (x : Nat) (hs : s = true → data.Sorted (· ≤ ·)) :
    (adds.foldl SnowflakeList.add (SnowflakeList.new data s)).Sorted (· ≤ ·) ∧
    (adds.foldl SnowflakeList.add (SnowflakeList.new data s)).Perm (data ++ adds) ∧
    (SnowflakeList.has (adds.foldl SnowflakeList.add (SnowflakeList.new data s)) x
      = true ↔ x ∈ data ++ adds) ∧
    SnowflakeList.get (adds.foldl SnowflakeList.add (SnowflakeList.new data s)) x
      = if x ∈ data ++ adds then some x else none := by
  have hbase_sorted : (SnowflakeList.new data s).Sorted (· ≤ ·) := by
    cases s with
    | true => rw [SnowflakeList.new, if_pos rfl]; exact hs rfl
    | false =>
        rw [SnowflakeList.new, if_neg (by simp)]
        exact List.sorted_mergeSort' data
  have hbase_perm : (SnowflakeList.new data s).Perm data := by
    cases s with
    | true => rw [SnowflakeList.new, if_pos rfl]
    | false =>
        rw [SnowflakeList.new, if_neg (by simp)]
        exact List.mergeSort_perm data _
  have hfold : ∀ (l a : List Nat), a.Sorted (· ≤ ·) →
      (l.foldl SnowflakeList.add a).Sorted (· ≤ ·) ∧
      (l.foldl SnowflakeList.add a).Perm (a ++ l) := by
    intro l
    induction l with
    | nil => exact fun a ha => ⟨ha, by simp⟩
    | cons e l ih =>
        intro a ha
        obtain ⟨h1, h2⟩ := ih (SnowflakeList.add a e) (sorted_add ha e)
        refine ⟨h1, h2.trans ?_⟩
        exact ((add_perm a e).append_right l).trans List.perm_middle.symm
  obtain ⟨hS, hP⟩ := hfold adds (SnowflakeList.new data s) hbase_sorted
  have hPfull : (adds.foldl SnowflakeList.add (SnowflakeList.new data s)).Perm
      (data ++ adds) := hP.trans (hbase_perm.append_right adds)
  refine ⟨hS, hPfull, ?_, ?_⟩
  · rw [has_iff_mem hS x]
    exact hPfull.mem_iff
  · rw [get_eq hS x]
    by_cases hm : x ∈ data ++ adds
    · rw [if_pos (hPfull.mem_iff.mpr hm), if_pos hm]
    · rw [if_neg (fun hc => hm (hPfull.mem_iff.mp hc)), if_neg hm]

/-- Witness for `snowflake_list_invariant` on a concrete unsorted
collection and a concrete add sequence. -/
theorem snowflake_list_invariant_witness :
    (([7, 3].foldl SnowflakeList.add (SnowflakeList.new [5, 3, 9] false)).Sorted
      (· ≤ ·)) ∧
    (([7, 3].foldl SnowflakeList.add (SnowflakeList.new [5, 3, 9] false)).Perm
      ([5, 3, 9] ++ [7, 3])) ∧
    (SnowflakeList.has ([7, 3].foldl SnowflakeList.add
      (SnowflakeList.new [5, 3, 9] false)) 7 = true ↔ 7 ∈ [5, 3, 9] ++ [7, 3]) ∧
    SnowflakeList.get ([7, 3].foldl SnowflakeList.add
      (SnowflakeList.new [5, 3, 9] false)) 7
      = if 7 ∈ [5, 3, 9] ++ [7, 3] then some 7 else none :=
  snowflake_list_invariant [5, 3, 9] false [7, 3] 7 (by simp)

end DiscordBot
